import Mathlib

/-!
Verification development for the secretbox repository: a shallow embedding of
the env-file parser, the value normalizer, the merge engine of `SecretBox`
and `LoadEnv`, and the name-resolution logic of the AWS loaders, together
with theorems settling the specification claims.
-/

set_option maxRecDepth 4000

/-- The single-quote character, written via its code point. -/
def squote : Char := Char.ofNat 39

/-- Whitespace characters recognised by the Python `str.strip` method
(ASCII range; the repository only handles ASCII configuration text). -/
def isPyWhitespace (c : Char) : Bool :=
  c == ' ' || c == '\t' || c == '\n' || c == '\r' || c == '\x0b' || c == '\x0c'

/-- Python `s.strip()`: remove leading and trailing whitespace. -/
def pyStrip (s : String) : String :=
  String.mk (List.rdropWhile isPyWhitespace (List.dropWhile isPyWhitespace s.data))

/-- Python `text.split(sep)` for a one-character separator. -/
def splitOnChar (sep : Char) : List Char → List (List Char)
  | [] => [[]]
  | c :: rest =>
    if c = sep then [] :: splitOnChar sep rest
    else
      match splitOnChar sep rest with
      | h :: t => (c :: h) :: t
      | [] => [[c]]

/-- Python `line.split(c, 1)` when it yields two parts: split at the
first occurrence of the equals sign; `none` when the character is absent,
mirroring `len(line.split(sep, 1)) != 2`. -/
def splitFirstEq : List Char → Option (List Char × List Char)
  | [] => none
  | c :: rest =>
    if c = '=' then some ([], rest)
    else
      match splitFirstEq rest with
      | some kv => some (c :: kv.1, kv.2)
      | none => none

/-- A double or single quote, the character class of `RE_LTQUOTES`. -/
def isQuoteChar (c : Char) : Prop := c = '"' ∨ c = squote

instance (c : Char) : Decidable (isQuoteChar c) :=
  inferInstanceAs (Decidable (_ ∨ _))

/-- Group 2 of `EnvFileLoader.RE_LTQUOTES`, the regular expression
`([quote])(.*)\1$` tried by `re.match`: the input must begin with a quote
character, end with the same quote character (the `$` anchor also accepts a
position just before one final newline, and `.` never crosses a newline),
and the group captures what stands between the two quotes. -/
def reLtQuotesGroup2 (cs : List Char) : Option (List Char) :=
  match (if cs.getLast? = some '\n' then cs.dropLast else cs) with
  | [] => none
  | q :: rest =>
    if isQuoteChar q ∧ rest.getLast? = some q ∧ (∀ c ∈ rest.dropLast, c ≠ '\n')
    then some rest.dropLast
    else none

/-- `EnvFileLoader.remove_lt_quotes`: return the captured group when the
match succeeded and the group is non-empty (Python truthiness of the group),
otherwise return the input unchanged. -/
def remove_lt_quotes (s : String) : String :=
  match reLtQuotesGroup2 s.data with
  | some mid => if mid = [] then s else String.mk mid
  | none => s

/-- `EnvFileLoader.strip_export`: `re.sub` of the case-insensitive anchored
pattern of optional whitespace, the word for shell exporting, and one
whitespace character; the matched prefix is removed when present. -/
def strip_export (s : String) : String :=
  match (s.data.dropWhile isPyWhitespace).drop 6 with
  | c :: tail =>
    if ((s.data.dropWhile isPyWhitespace).take 6).map Char.toLower
        = ['e', 'x', 'p', 'o', 'r', 't'] ∧ isPyWhitespace c = true
    then String.mk tail
    else s
  | [] => s

/-- One iteration of the loop body of `EnvFileLoader.parse_env_file`:
skip an empty line, a comment line, or a line without an equals sign;
otherwise split at the first equals sign, normalize the key (strip the
exporting prefix, then whitespace) and the value (strip whitespace, then
matched quotes). -/
def parseLine (line : String) : Option (String × String) :=
  if line.data = [] then none
  else if (pyStrip line).data.head? = some '#' then none
  else
    match splitFirstEq line.data with
    | none => none
    | some kv =>
      some (pyStrip (strip_export (String.mk kv.1)),
            remove_lt_quotes (pyStrip (String.mk kv.2)))

/-- Python `s.strip(c)` for a single stripping character: remove every
leading and trailing occurrence of that character. -/
def stripAllChar (s : String) (c : Char) : String :=
  String.mk (List.rdropWhile (· == c) (List.dropWhile (· == c) s.data))

/-- `SecretBox.__remove_lt_dbl_quotes`: when the value both starts and ends
with a double quote, strip all leading and trailing double quotes. -/
def remove_lt_dbl_quotes (s : String) : String :=
  if s.data.head? = some '"' ∧ s.data.getLast? = some '"'
  then stripAllChar s '"' else s

/-- `SecretBox.__remove_lt_sgl_quotes`: the same for single quotes. -/
def remove_lt_sgl_quotes (s : String) : String :=
  if s.data.head? = some squote ∧ s.data.getLast? = some squote
  then stripAllChar s squote else s

/-- One iteration of the loop body of `SecretBox.__parse_env_file`: as for
the file loader, but the key is only whitespace-stripped and the value goes
through the double-quote strip and then the single-quote strip. -/
def parseLineSB (line : String) : Option (String × String) :=
  if line.data = [] then none
  else if (pyStrip line).data.head? = some '#' then none
  else
    match splitFirstEq line.data with
    | none => none
    | some kv =>
      some (pyStrip (String.mk kv.1),
            remove_lt_sgl_quotes (remove_lt_dbl_quotes (pyStrip (String.mk kv.2))))

/-- A Python dictionary from string keys to string values, kept in
insertion order. -/
abbrev Store := List (String × String)

/-- Dictionary lookup, `d[k]` guarded by `k in d`. -/
def lookupStore : Store → String → Option String
  | [], _ => none
  | (a, b) :: t, k => if a = k then some b else lookupStore t k

/-- Dictionary assignment `d[k] = v`: overwrite the entry in place when the
key is present, append a new entry otherwise. -/
def setKey : Store → String → String → Store
  | [], k, v => [(k, v)]
  | (a, b) :: t, k, v => if a = k then (k, v) :: t else (a, b) :: setKey t k v

/-- The pattern `for key, value in src.items(): dst[key] = value`, used by
`load_env_vars`, `push_to_environment` and the AWS merge loops. -/
def updateFrom (dst : Store) : Store → Store
  | [] => dst
  | (k, v) :: t => updateFrom (setKey dst k v) t

/-- Fold a line parser over the lines of a file, accumulating entries. -/
def applyLinesWith (f : String → Option (String × String)) (st : Store) :
    List (List Char) → Store
  | [] => st
  | l :: ls =>
    match f (String.mk l) with
    | some kv => applyLinesWith f (setKey st kv.1 kv.2) ls
    | none => applyLinesWith f st ls

/-- `EnvFileLoader.parse_env_file` over full file text. -/
def parse_env_file (st : Store) (text : String) : Store :=
  applyLinesWith parseLine st (splitOnChar '\n' text.data)

/-- `SecretBox.__parse_env_file` over full file text. -/
def sb_parse_env_file (st : Store) (text : String) : Store :=
  applyLinesWith parseLineSB st (splitOnChar '\n' text.data)

/-- `SecretBox.load_env_vars`: merge every process environment variable
into the loaded values. -/
def load_env_vars (st environ : Store) : Store := updateFrom st environ

/-- `SecretBox.push_to_environment`: write every loaded value into the
process environment, overwriting existing variables. -/
def push_to_environment (environ st : Store) : Store := updateFrom environ st

/-- `SecretBox.load_env_file`: parse the named file when it exists;
a missing file is a soft failure leaving the values untouched. -/
def load_env_file (st : Store) (file : Option String) : Store × Bool :=
  match file with
  | some text => (sb_parse_env_file st text, true)
  | none => (st, false)

/-- `SecretBox.load` with the AWS branch inactive (`boto3` unavailable or
the store and region names unset): load the environment variables, then the
env file, then push the merged values back into the process environment.
Returns the loaded values and the resulting process environment. -/
def secretbox_load (environ : Store) (file : Option String) : Store × Store :=
  let st := load_env_vars [] environ
  let st := (load_env_file st file).1
  (st, push_to_environment environ st)

/-- `EnvFileLoader.run`: parse the file into a fresh instance state, write
each parsed value into the process environment, and report whether the file
was found. Returns the loaded values, the environment, and the flag. -/
def envfile_run (environ : Store) (file : Option String) : Store × Store × Bool :=
  match file with
  | some text =>
    let st := parse_env_file [] text
    (st, updateFrom environ st, true)
  | none => ([], updateFrom environ [], false)

/-- `SecretBox.get`: the stored value when the key is present, the supplied
default otherwise. -/
def sb_get (st : Store) (key dflt : String) : String :=
  match lookupStore st key with
  | some v => v
  | none => dflt

/-- `LoadEnv.get`: the stored value when the key is present, the empty
string otherwise. -/
def loadenv_get (st : Store) (key : String) : String :=
  match lookupStore st key with
  | some v => v
  | none => ""

/-- `os.getenv(key)`: `none` when the variable is unset. -/
def getenv (environ : Store) (key : String) : Option String :=
  lookupStore environ key

/-- `os.getenv(key, deflt)` with an optional default. -/
def getenvD (environ : Store) (key : String) (dflt : Option String) : Option String :=
  match getenv environ key with
  | some v => some v
  | none => dflt

/-- Python `a or b` on optional strings: `b` when `a` is `None` or the
empty string, `a` otherwise. -/
def pyOrOpt (a b : Option String) : Option String :=
  match a with
  | some s => if s = "" then b else some s
  | none => b

/-- `AWSLoader.populate_region_store_names`: resolve the store and region
names from the arguments, the deprecated keyword arguments, and the process
environment. The region environment default chain is
`os.getenv(primary, os.getenv(fallback))`. -/
def populate_region_store_names
    (sstore region kwSstore kwRegion : Option String) (environ : Store) :
    Option String × Option String :=
  let kwS := pyOrOpt sstore kwSstore
  let kwR := pyOrOpt region kwRegion
  let osS := getenv environ "AWS_SSTORE_NAME"
  let osR := getenvD environ "AWS_REGION_NAME" (getenv environ "AWS_REGION")
  ((match kwS with | some s => some s | none => osS),
   (match kwR with | some r => some r | none => osR))

/-- Outcome of an AWS loader run, up to the first remote call: either an
early return with a success flag and no values loaded, or a hand-off to the
remote API. -/
inductive AwsOutcome where
  | early (success : Bool)
  | remote
deriving DecidableEq

/-- Control flow of `AWSParameterStoreLoader._load_values` before any
remote request: no boto3 is a failure; a missing store name returns success
without loading; a missing region gives no client, a failure; otherwise the
loader proceeds to the remote API. -/
def pstore_load_values (boto3Avail : Bool)
    (sArg rArg s0 r0 kwS kwR : Option String) (environ : Store) :
    AwsOutcome × (Option String × Option String) :=
  if boto3Avail then
    let names := populate_region_store_names
      (pyOrOpt sArg s0) (pyOrOpt rArg r0) kwS kwR environ
    if names.1 = none then (AwsOutcome.early true, names)
    else if names.2 = none then (AwsOutcome.early false, names)
    else (AwsOutcome.remote, names)
  else (AwsOutcome.early false, (s0, r0))

/-- Control flow of `AWSSecretLoader._load_values` before any remote
request: no boto3 or a missing store name is a failure; a region that is
unset or empty gives no client, a failure; otherwise the loader proceeds to
the remote API. -/
def secret_load_values (boto3Avail : Bool)
    (sArg rArg s0 r0 kwS kwR : Option String) (environ : Store) :
    AwsOutcome × (Option String × Option String) :=
  if boto3Avail then
    let names := populate_region_store_names
      (pyOrOpt sArg s0) (pyOrOpt rArg r0) kwS kwR environ
    if names.1 = none then (AwsOutcome.early false, names)
    else if names.2 = none ∨ names.2 = some "" then (AwsOutcome.early false, names)
    else (AwsOutcome.remote, names)
  else (AwsOutcome.early false, (s0, r0))

/-- Modelled from the spec claim for the normalizer: strip exactly one
layer whenever the string begins and ends with a matching pair of quote
characters, with no restriction on what stands between them. -/
def stripOneMatchedLayerSpec (s : String) : String :=
  match s.data with
  | [] => s
  | q :: rest =>
    if isQuoteChar q ∧ rest.getLast? = some q
    then String.mk rest.dropLast
    else s

/-- The amended normalizer contract: strip exactly one layer of a matching
leading and trailing quote pair when at least one character stands between
the quotes; otherwise, including the bare matched pairs of two quote
characters, return the input unchanged. -/
def stripOneMatchedLayer (s : String) : String :=
  match s.data with
  | [] => s
  | q :: rest =>
    if isQuoteChar q ∧ rest.getLast? = some q ∧ rest.dropLast ≠ []
    then String.mk rest.dropLast
    else s

/-- Whether the normalizer would strip a layer from this string: the quote
regular expression matches with a non-empty captured group. -/
def strippedAgainB (t : String) : Bool :=
  match reLtQuotesGroup2 t.data with
  | some mid => !mid.isEmpty
  | none => false

/-! Helper lemmas about strings, stripping and splitting. -/

theorem string_ext (s t : String) (h : s.data = t.data) : s = t := by
  cases s; cases t; simp only at h; rw [h]

theorem mk_data (s : String) : String.mk s.data = s := rfl

theorem data_eq_nil_iff (s : String) : s.data = [] ↔ s = "" := by
  constructor
  · intro h; exact string_ext s ("") h
  · intro h; rw [h]

theorem length_dropWhile_le_char (p : Char → Bool) (l : List Char) :
    (List.dropWhile p l).length ≤ l.length := by
  induction l with
  | nil => simp
  | cons a t ih =>
    rw [List.dropWhile_cons]
    split
    · exact le_trans ih (Nat.le_succ _)
    · exact le_refl _

theorem length_rdropWhile_le_char (p : Char → Bool) (l : List Char) :
    (List.rdropWhile p l).length ≤ l.length := by
  have h : List.rdropWhile p l = (List.dropWhile p l.reverse).reverse := rfl
  rw [h, List.length_reverse]
  calc (List.dropWhile p l.reverse).length
      ≤ l.reverse.length := length_dropWhile_le_char p l.reverse
    _ = l.length := List.length_reverse l

theorem rdropWhile_cons_of_neg (p : Char → Bool) (c : Char) (l : List Char)
    (h : p c = false) : List.rdropWhile p (c :: l) = c :: List.rdropWhile p l := by
  induction l using List.reverseRecOn with
  | nil =>
    rw [List.rdropWhile_singleton, if_neg (by simp [h]), List.rdropWhile_nil]
  | append_singleton l a ih =>
    have hcl : c :: (l ++ [a]) = (c :: l) ++ [a] := rfl
    rw [hcl, List.rdropWhile_concat, List.rdropWhile_concat]
    by_cases hpa : p a
    · rw [if_pos hpa, if_pos hpa, ih]
    · rw [if_neg hpa, if_neg hpa]
      rfl

theorem pyStrip_data (s : String) :
    (pyStrip s).data
      = List.rdropWhile isPyWhitespace (List.dropWhile isPyWhitespace s.data) := rfl

theorem pyStrip_head (s : String) (c : Char) (l : List Char)
    (hd : s.data = c :: l) (h : isPyWhitespace c = false) :
    (pyStrip s).data.head? = some c := by
  rw [pyStrip_data, hd, List.dropWhile_cons, if_neg (by simp [h]),
    rdropWhile_cons_of_neg _ _ _ h]
  rfl

theorem head_not_ws_of_pyStrip_fix (s : String) (c : Char) (l : List Char)
    (hd : s.data = c :: l) (hfix : pyStrip s = s) : isPyWhitespace c = false := by
  by_contra hws
  have hws' : isPyWhitespace c = true := by
    revert hws; cases isPyWhitespace c <;> simp
  have hlen : (pyStrip s).data.length = s.data.length := by rw [hfix]
  rw [pyStrip_data, hd, List.dropWhile_cons, if_pos (by simp [hws'])] at hlen
  have h1 := length_rdropWhile_le_char isPyWhitespace (List.dropWhile isPyWhitespace l)
  have h2 := length_dropWhile_le_char isPyWhitespace l
  simp only [List.length_cons] at hlen
  omega

theorem splitFirstEq_append (k rest : List Char) (h : '=' ∉ k) :
    splitFirstEq (k ++ '=' :: rest) = some (k, rest) := by
  induction k with
  | nil => simp [splitFirstEq]
  | cons a t ih =>
    have ha : ¬ a = '=' := by intro e; exact h (by simp [e])
    have ht : '=' ∉ t := fun m => h (List.mem_cons_of_mem a m)
    rw [List.cons_append]
    unfold splitFirstEq
    rw [if_neg ha, ih ht]

theorem splitFirstEq_none (cs : List Char) (h : '=' ∉ cs) : splitFirstEq cs = none := by
  induction cs with
  | nil => rfl
  | cons a t ih =>
    have ha : ¬ a = '=' := by intro e; exact h (by simp [e])
    have ht : '=' ∉ t := fun m => h (List.mem_cons_of_mem a m)
    unfold splitFirstEq
    rw [if_neg ha, ih ht]

theorem mem_of_getLast?_eq {l : List Char} {a : Char} (h : l.getLast? = some a) :
    a ∈ l := by
  induction l with
  | nil => cases h
  | cons c t ih =>
    cases t with
    | nil =>
      simp only [List.getLast?_singleton, Option.some.injEq] at h
      simp [h]
    | cons d t' =>
      rw [List.getLast?_cons_cons] at h
      exact List.mem_cons_of_mem c (ih h)

/-! Helper lemmas about the dictionary model. -/

theorem lookup_setKey_self (st : Store) (k v : String) :
    lookupStore (setKey st k v) k = some v := by
  induction st with
  | nil => simp [setKey, lookupStore]
  | cons p t ih =>
    obtain ⟨a, b⟩ := p
    by_cases h : a = k
    · simp [setKey, if_pos h, lookupStore]
    · simp [setKey, if_neg h, lookupStore, ih]

theorem lookup_setKey_ne (st : Store) (k v k' : String) (h : k' ≠ k) :
    lookupStore (setKey st k v) k' = lookupStore st k' := by
  have hkk : ¬ k = k' := fun e => h e.symm
  induction st with
  | nil => simp [setKey, lookupStore, hkk]
  | cons p t ih =>
    obtain ⟨a, b⟩ := p
    by_cases ha : a = k
    · subst ha
      simp only [setKey, if_pos rfl, lookupStore]
      rw [if_neg hkk, if_neg hkk]
    · simp only [setKey, if_neg ha, lookupStore]
      by_cases ha' : a = k'
      · rw [if_pos ha', if_pos ha']
      · rw [if_neg ha', if_neg ha', ih]

theorem lookup_updateFrom_not_mem (src : Store) :
    ∀ (dst : Store) (k : String), k ∉ src.map Prod.fst →
      lookupStore (updateFrom dst src) k = lookupStore dst k := by
  induction src with
  | nil => intro dst k _; rfl
  | cons p t ih =>
    obtain ⟨a, b⟩ := p
    intro dst k h
    have hk : k ≠ a := by intro e; exact h (by simp [e])
    have ht : k ∉ t.map Prod.fst := fun m => h (by simp [m])
    show lookupStore (updateFrom (setKey dst a b) t) k = lookupStore dst k
    rw [ih _ _ ht, lookup_setKey_ne _ _ _ _ hk]

theorem lookup_updateFrom_mem (src : Store) :
    ∀ (dst : Store) (k v : String), (src.map Prod.fst).Nodup →
      lookupStore src k = some v →
      lookupStore (updateFrom dst src) k = some v := by
  induction src with
  | nil => intro dst k v _ h; cases h
  | cons p t ih =>
    obtain ⟨a, b⟩ := p
    intro dst k v hnd h
    rw [List.map_cons, List.nodup_cons] at hnd
    by_cases hak : a = k
    · subst hak
      have hv : b = v := by simpa [lookupStore] using h
      subst hv
      show lookupStore (updateFrom (setKey dst a b) t) a = some b
      rw [lookup_updateFrom_not_mem t _ _ hnd.1, lookup_setKey_self]
    · have h' : lookupStore t k = some v := by simpa [lookupStore, hak] using h
      show lookupStore (updateFrom (setKey dst a b) t) k = some v
      exact ih _ _ _ hnd.2 h'

theorem mem_keys_setKey (st : Store) (k v x : String)
    (h : x ∈ (setKey st k v).map Prod.fst) : x ∈ st.map Prod.fst ∨ x = k := by
  induction st with
  | nil =>
    simp [setKey] at h
    right; exact h
  | cons p t ih =>
    obtain ⟨a, b⟩ := p
    by_cases hak : a = k
    · rw [setKey, if_pos hak] at h
      simp only [List.map_cons, List.mem_cons] at h
      rcases h with h | h
      · right; exact h
      · left; simp [h]
    · rw [setKey, if_neg hak] at h
      simp only [List.map_cons, List.mem_cons] at h
      rcases h with h | h
      · left; simp [h]
      · rcases ih h with h' | h'
        · left; simp only [List.map_cons, List.mem_cons]; right; exact h'
        · right; exact h'

theorem nodup_keys_setKey (st : Store) (k v : String)
    (h : (st.map Prod.fst).Nodup) : ((setKey st k v).map Prod.fst).Nodup := by
  induction st with
  | nil => simp [setKey]
  | cons p t ih =>
    obtain ⟨a, b⟩ := p
    rw [List.map_cons, List.nodup_cons] at h
    by_cases hak : a = k
    · rw [setKey, if_pos hak, List.map_cons, List.nodup_cons]
      exact ⟨by rw [← hak]; exact h.1, h.2⟩
    · rw [setKey, if_neg hak, List.map_cons, List.nodup_cons]
      refine ⟨?_, ih h.2⟩
      intro hmem
      rcases mem_keys_setKey t k v a hmem with h' | h'
      · exact h.1 h'
      · exact hak h'

theorem nodup_keys_updateFrom (src : Store) :
    ∀ dst : Store, (dst.map Prod.fst).Nodup →
      ((updateFrom dst src).map Prod.fst).Nodup := by
  induction src with
  | nil => intro dst h; exact h
  | cons p t ih =>
    obtain ⟨a, b⟩ := p
    intro dst h
    show ((updateFrom (setKey dst a b) t).map Prod.fst).Nodup
    exact ih _ (nodup_keys_setKey dst a b h)

theorem nodup_keys_applyLinesWith (f : String → Option (String × String))
    (ls : List (List Char)) :
    ∀ st : Store, (st.map Prod.fst).Nodup →
      ((applyLinesWith f st ls).map Prod.fst).Nodup := by
  induction ls with
  | nil => intro st h; exact h
  | cons l t ih =>
    intro st h
    unfold applyLinesWith
    cases hf : f (String.mk l) with
    | none => exact ih st h
    | some kv => exact ih _ (nodup_keys_setKey st kv.1 kv.2 h)

/-! Helper lemmas about the line parsers. -/

theorem parseLine_eq (line : String) (k rest : List Char)
    (hsplit : line.data = k ++ '=' :: rest)
    (hk : '=' ∉ k)
    (hhash : ¬ (pyStrip line).data.head? = some '#') :
    parseLine line = some (pyStrip (strip_export (String.mk k)),
                           remove_lt_quotes (pyStrip (String.mk rest))) := by
  have hne : ¬ line.data = [] := by rw [hsplit]; simp
  unfold parseLine
  rw [if_neg hne, if_neg hhash, hsplit, splitFirstEq_append _ _ hk]

theorem parseLineSB_eq (line : String) (k rest : List Char)
    (hsplit : line.data = k ++ '=' :: rest)
    (hk : '=' ∉ k)
    (hhash : ¬ (pyStrip line).data.head? = some '#') :
    parseLineSB line
      = some (pyStrip (String.mk k),
              remove_lt_sgl_quotes (remove_lt_dbl_quotes (pyStrip (String.mk rest)))) := by
  have hne : ¬ line.data = [] := by rw [hsplit]; simp
  unfold parseLineSB
  rw [if_neg hne, if_neg hhash, hsplit, splitFirstEq_append _ _ hk]

theorem line_head_not_hash (line k : String) (rest : List Char)
    (hd : line.data = k.data ++ '=' :: rest)
    (hstrip : pyStrip k = k) (hhash : ¬ k.data.head? = some '#') :
    ¬ (pyStrip line).data.head? = some '#' := by
  cases hK : k.data with
  | nil =>
    rw [hK, List.nil_append] at hd
    rw [pyStrip_head line '=' rest hd (by decide)]
    decide
  | cons c t =>
    have hw := head_not_ws_of_pyStrip_fix k c t hK hstrip
    have hc : ¬ c = '#' := by rw [hK] at hhash; simpa using hhash
    have hd' : line.data = c :: (t ++ '=' :: rest) := by
      rw [hd, hK]; rfl
    rw [pyStrip_head line c _ hd' hw]
    simpa using hc

theorem parseLine_none_of_no_eq (line : String) (h : '=' ∉ line.data) :
    parseLine line = none := by
  unfold parseLine
  by_cases h1 : line.data = []
  · rw [if_pos h1]
  · rw [if_neg h1]
    by_cases h2 : (pyStrip line).data.head? = some '#'
    · rw [if_pos h2]
    · rw [if_neg h2, splitFirstEq_none _ h]

theorem parseLineSB_none_of_no_eq (line : String) (h : '=' ∉ line.data) :
    parseLineSB line = none := by
  unfold parseLineSB
  by_cases h1 : line.data = []
  · rw [if_pos h1]
  · rw [if_neg h1]
    by_cases h2 : (pyStrip line).data.head? = some '#'
    · rw [if_pos h2]
    · rw [if_neg h2, splitFirstEq_none _ h]

theorem pyStrip_wrap (c d : Char) (l : List Char)
    (hc : isPyWhitespace c = false) (hd : isPyWhitespace d = false) :
    pyStrip (String.mk (c :: l ++ [d])) = String.mk (c :: l ++ [d]) := by
  apply string_ext
  rw [pyStrip_data]
  show List.rdropWhile isPyWhitespace
      (List.dropWhile isPyWhitespace (c :: (l ++ [d]))) = c :: (l ++ [d])
  rw [List.dropWhile_cons, if_neg (by simp [hc])]
  rw [show c :: (l ++ [d]) = (c :: l) ++ [d] from rfl]
  rw [List.rdropWhile_concat_neg _ _ _ (by simp [hd])]

theorem reLtQuotesGroup2_wrap (q : Char) (l : List Char)
    (hq : isQuoteChar q) (hnl : ∀ c ∈ l, c ≠ '\n') :
    reLtQuotesGroup2 (q :: l ++ [q]) = some l := by
  have hqn : q ≠ '\n' := by
    rcases hq with h | h <;> rw [h] <;> decide
  have hlast : (q :: l ++ [q]).getLast? = some q := by
    rw [show q :: l ++ [q] = (q :: l) ++ [q] from rfl]
    exact List.getLast?_concat _
  have hlast2 : (l ++ [q]).getLast? = some q := List.getLast?_concat _
  have hdrop : (l ++ [q]).dropLast = l := List.dropLast_concat
  unfold reLtQuotesGroup2
  rw [if_neg (by rw [hlast]; simp [hqn])]
  show (if isQuoteChar q ∧ (l ++ [q]).getLast? = some q ∧ (∀ c ∈ (l ++ [q]).dropLast, c ≠ '\n')
    then some (l ++ [q]).dropLast else none) = some l
  rw [if_pos ⟨hq, hlast2, by rw [hdrop]; exact hnl⟩, hdrop]

theorem remove_lt_quotes_wrap (q : Char) (l : List Char)
    (hq : isQuoteChar q) (hne : l ≠ []) (hnl : ∀ c ∈ l, c ≠ '\n') :
    remove_lt_quotes (String.mk (q :: l ++ [q])) = String.mk l := by
  show (match reLtQuotesGroup2 (q :: l ++ [q]) with
    | some mid => if mid = [] then String.mk (q :: l ++ [q]) else String.mk mid
    | none => String.mk (q :: l ++ [q])) = String.mk l
  rw [reLtQuotesGroup2_wrap q l hq hnl]
  show (if l = [] then String.mk (q :: l ++ [q]) else String.mk l) = String.mk l
  rw [if_neg hne]

theorem eq_sign_data : ("=" : String).data = ['='] := rfl

/-- C1: merge precedence is later-source-wins: when two mappings A and B
share a key K with different values and B is applied second, the merged
store holds the value from B; concretely, loading an environment providing
FOO and then an env file assigning FOO yields the file value from `get`. -/
theorem C1_merge_later_wins (A B st : Store) (K a b : String)
    (hndA : (A.map Prod.fst).Nodup) (hndB : (B.map Prod.fst).Nodup)
    (hA : lookupStore A K = some a) (hB : lookupStore B K = some b)
    (hab : a ≠ b) :
    lookupStore (updateFrom (updateFrom st A) B) K = some b
    ∧ sb_get (secretbox_load [(("FOO"), ("env_value"))]
        (some ("FOO=file_value"))).1 ("FOO") ("") = ("file_value") :=
  ⟨lookup_updateFrom_mem B _ K b hndB hB, by decide⟩

theorem C1_merge_later_wins_witness :
    lookupStore [(("K"), ("b"))] ("K") = some ("b")
    ∧ lookupStore (updateFrom (updateFrom [] [(("K"), ("a"))])
        [(("K"), ("b"))]) ("K") = some ("b") :=
  ⟨by decide,
   (C1_merge_later_wins [(("K"), ("a"))] [(("K"), ("b"))] [] ("K") ("a") ("b")
      (by decide) (by decide) (by decide) (by decide) (by decide)).1⟩

/-- C2: the env-file parser splits a retained line only on the first equals
sign: a line of the form K=V1=V2, with K already a normalized key and the
value part V1=V2 already trimmed and not quote-wrapped, parses to key K and
value V1=V2; the concrete line of key VALID followed by two equals signs
yields the one-character equals value in both parser variants; and a line
containing no equals sign at all produces no entry in either variant. -/
theorem C2_first_eq_split (K V1 V2 : String)
    (hexp : strip_export K = K) (hstrip : pyStrip K = K)
    (hkeq : '=' ∉ K.data) (hhash : ¬ K.data.head? = some '#')
    (hvstrip : pyStrip (V1 ++ ("=") ++ V2) = V1 ++ ("=") ++ V2)
    (hvquote : remove_lt_quotes (V1 ++ ("=") ++ V2) = V1 ++ ("=") ++ V2) :
    (parseLine (K ++ ("=") ++ V1 ++ ("=") ++ V2) = some (K, V1 ++ ("=") ++ V2))
    ∧ (∀ line : String, '=' ∉ line.data →
        parseLine line = none ∧ parseLineSB line = none)
    ∧ parseLine ("VALID==") = some (("VALID"), ("="))
    ∧ parseLineSB ("VALID==") = some (("VALID"), ("=")) := by
  refine ⟨?_,
    fun line h => ⟨parseLine_none_of_no_eq line h, parseLineSB_none_of_no_eq line h⟩,
    by decide, by decide⟩
  have hdata : (K ++ ("=") ++ V1 ++ ("=") ++ V2).data
      = K.data ++ '=' :: (V1 ++ ("=") ++ V2).data := by
    simp [String.data_append, eq_sign_data]
  have hhash' := line_head_not_hash (K ++ ("=") ++ V1 ++ ("=") ++ V2) K
    ((V1 ++ ("=") ++ V2).data) hdata hstrip hhash
  rw [parseLine_eq _ K.data ((V1 ++ ("=") ++ V2).data) hdata hkeq hhash',
    mk_data, mk_data, hexp, hstrip, hvstrip, hvquote]

theorem C2_first_eq_split_witness :
    strip_export ("VALID") = ("VALID")
    ∧ parseLine (("VALID") ++ ("=") ++ ("") ++ ("=") ++ (""))
        = some (("VALID"), ("") ++ ("=") ++ ("")) :=
  ⟨by decide,
   (C2_first_eq_split ("VALID") ("") ("") (by decide) (by decide) (by decide)
      (by decide) (by decide) (by decide)).1⟩

/-- C10: a line whose first equals sign is its first character is not
skipped: both parser variants store the entry under the empty-string key
with the normalized right-hand side as value, and that entry is visible
through the merged mapping of the loaded box. -/
theorem C10_empty_key_line (cs : List Char) :
    parseLine (String.mk ('=' :: cs))
      = some (("" : String), remove_lt_quotes (pyStrip (String.mk cs)))
    ∧ parseLineSB (String.mk ('=' :: cs))
      = some (("" : String),
          remove_lt_sgl_quotes (remove_lt_dbl_quotes (pyStrip (String.mk cs))))
    ∧ sb_get (secretbox_load [] (some ("=value"))).1 ("") ("MISSING") = ("value")
    ∧ lookupStore (parse_env_file [] ("=value")) ("") = some ("value") := by
  have hdata : (String.mk ('=' :: cs)).data = [] ++ '=' :: cs := rfl
  have hhash : ¬ (pyStrip (String.mk ('=' :: cs))).data.head? = some '#' := by
    rw [pyStrip_head _ '=' cs rfl (by decide)]
    decide
  refine ⟨?_, ?_, by decide, by decide⟩
  · rw [parseLine_eq _ [] cs hdata (by simp) hhash]
    rfl
  · rw [parseLineSB_eq _ [] cs hdata (by simp) hhash]
    rfl

theorem secretbox_load_snd (environ : Store) (file : Option String) :
    (secretbox_load environ file).2
      = push_to_environment environ (secretbox_load environ file).1 := rfl

theorem nodup_keys_secretbox_load (environ : Store) (file : Option String) :
    (((secretbox_load environ file).1).map Prod.fst).Nodup := by
  have h0 : ((load_env_vars [] environ).map Prod.fst).Nodup :=
    nodup_keys_updateFrom environ [] (by simp)
  show (((load_env_file (load_env_vars [] environ) file).1).map Prod.fst).Nodup
  cases file with
  | none => exact h0
  | some t =>
    show ((sb_parse_env_file (load_env_vars [] environ) t).map Prod.fst).Nodup
    exact nodup_keys_applyLinesWith parseLineSB _ _ h0

/-- C4 counterexample: on a store without the requested key, `SecretBox.get`
returns its default argument and `LoadEnv.get` returns the empty string; no
failure of any kind occurs, so the accessor does silently substitute a value
for a missing key. -/
theorem C4_cex :
    lookupStore ([] : Store) ("API_KEY") = none
    ∧ sb_get [] ("API_KEY") ("") = ("")
    ∧ loadenv_get [] ("API_KEY") = ("") := by decide

/-- C4 amended: for every key absent from the merged mapping,
`SecretBox.get` returns the supplied default (the empty string when the
caller passes none) and `LoadEnv.get` returns the empty string; neither
accessor can fail. -/
theorem C4_get_returns_default (st : Store) (k dflt : String)
    (h : lookupStore st k = none) :
    sb_get st k dflt = dflt ∧ loadenv_get st k = ("") := by
  unfold sb_get loadenv_get
  rw [h]
  exact ⟨rfl, rfl⟩

theorem C4_get_returns_default_witness :
    lookupStore ([] : Store) ("TOKEN") = none
    ∧ sb_get [] ("TOKEN") ("fallback") = ("fallback") :=
  ⟨by decide, (C4_get_returns_default [] ("TOKEN") ("fallback") (by decide)).1⟩

/-- C5 counterexample: running the load sequence with no opt-in whatsoever
changes the process environment: starting from an empty environment, after
`SecretBox.load` on a file assigning FOO the environment holds FOO. -/
theorem C5_cex :
    lookupStore ([] : Store) ("FOO") = none
    ∧ lookupStore (secretbox_load [] (some ("FOO=bar"))).2 ("FOO")
        = some ("bar") := by decide

/-- C5 amended: pushing to the process environment is unconditional, not
opt-in: every value in the merged mapping after `SecretBox.load` is set in
the resulting process environment, and `EnvFileLoader.run` likewise writes
every parsed value into the environment. -/
theorem C5_push_automatic (environ : Store) (file : Option String) (k v : String)
    (h : lookupStore (secretbox_load environ file).1 k = some v) :
    lookupStore (secretbox_load environ file).2 k = some v
    ∧ (∀ k2 v2 : String, lookupStore (envfile_run environ file).1 k2 = some v2 →
        lookupStore (envfile_run environ file).2.1 k2 = some v2) := by
  constructor
  · rw [secretbox_load_snd]
    exact lookup_updateFrom_mem _ _ _ _ (nodup_keys_secretbox_load environ file) h
  · intro k2 v2 h2
    cases file with
    | none => simp [envfile_run, lookupStore] at h2
    | some t =>
      have hnd : ((parse_env_file [] t).map Prod.fst).Nodup :=
        nodup_keys_applyLinesWith parseLine _ _ (by simp)
      have h2' : lookupStore (parse_env_file [] t) k2 = some v2 := h2
      show lookupStore (updateFrom environ (parse_env_file [] t)) k2 = some v2
      exact lookup_updateFrom_mem _ _ _ _ hnd h2'

theorem C5_push_automatic_witness :
    lookupStore (secretbox_load [] (some ("FOO=bar"))).1 ("FOO") = some ("bar")
    ∧ lookupStore (secretbox_load [] (some ("FOO=bar"))).2 ("FOO") = some ("bar") :=
  ⟨by decide, (C5_push_automatic [] (some ("FOO=bar")) ("FOO") ("bar") (by decide)).1⟩

/-- C3 counterexample: on the two-character string of a matched pair of
double quotes, the claimed normalizer strips one layer yielding the empty
string, but the code returns the input unchanged because the captured group
is empty and therefore falsy. -/
theorem C3_cex :
    remove_lt_quotes ("\"\"") ≠ stripOneMatchedLayerSpec ("\"\"")
    ∧ remove_lt_quotes ("\"\"") = ("\"\"")
    ∧ stripOneMatchedLayerSpec ("\"\"") = ("") := by decide

/-- C3 amended: on every newline-free input the normalizer strips exactly
one layer of a matching leading and trailing quote pair when at least one
character stands between the quotes, and otherwise, including a matched
pair with nothing between the quotes and any unmatched quote, returns the
input unchanged; nested quotes of the other kind are preserved verbatim
since only the outer layer is removed. -/
theorem C3_one_layer (s : String) (h : ∀ c ∈ s.data, c ≠ '\n') :
    remove_lt_quotes s = stripOneMatchedLayer s := by
  have hlast : ¬ s.data.getLast? = some '\n' := by
    intro e
    exact h '\n' (mem_of_getLast?_eq e) rfl
  cases hs : s.data with
  | nil =>
    have hempty : s = "" := (data_eq_nil_iff s).mp hs
    rw [hempty]
    decide
  | cons q rest =>
    have hg : reLtQuotesGroup2 s.data
        = if isQuoteChar q ∧ rest.getLast? = some q ∧ (∀ c ∈ rest.dropLast, c ≠ '\n')
          then some rest.dropLast else none := by
      unfold reLtQuotesGroup2
      rw [if_neg hlast, hs]
    unfold remove_lt_quotes stripOneMatchedLayer
    rw [hg, hs]
    by_cases h1 : isQuoteChar q ∧ rest.getLast? = some q
    · have hnl : ∀ c ∈ rest.dropLast, c ≠ '\n' := by
        intro c hc
        exact h c (by rw [hs]; exact List.mem_cons_of_mem _ ((List.dropLast_sublist rest).subset hc))
      by_cases h2 : rest.dropLast = []
      · simp only [if_pos (And.intro h1.1 (And.intro h1.2 hnl)), if_pos h2,
          if_neg (show ¬ (isQuoteChar q ∧ rest.getLast? = some q ∧ rest.dropLast ≠ [])
            from fun hcon => hcon.2.2 h2)]
      · simp only [if_pos (And.intro h1.1 (And.intro h1.2 hnl)), if_neg h2,
          if_pos (And.intro h1.1 (And.intro h1.2 h2))]
    · simp only [
        if_neg (show ¬ (isQuoteChar q ∧ rest.getLast? = some q ∧ (∀ c ∈ rest.dropLast, c ≠ '\n'))
          from fun hcon => h1 (And.intro hcon.1 hcon.2.1)),
        if_neg (show ¬ (isQuoteChar q ∧ rest.getLast? = some q ∧ rest.dropLast ≠ [])
          from fun hcon => h1 (And.intro hcon.1 hcon.2.1))]

theorem C3_one_layer_witness :
    (∀ c ∈ ("\"inner\"" : String).data, c ≠ '\n')
    ∧ remove_lt_quotes ("\"inner\"") = stripOneMatchedLayer ("\"inner\"") :=
  ⟨by decide, C3_one_layer ("\"inner\"") (by decide)⟩

theorem strippedAgainB_false_fix (t : String) (h : strippedAgainB t = false) :
    remove_lt_quotes t = t := by
  unfold strippedAgainB at h
  unfold remove_lt_quotes
  cases hg : reLtQuotesGroup2 t.data with
  | none => rfl
  | some mid =>
    rw [hg] at h
    simp only [Bool.not_eq_false', List.isEmpty_iff] at h
    show (if mid = [] then t else String.mk mid) = t
    rw [if_pos h]

/-- C6 counterexample: normalization is not idempotent: a doubly
double-quoted word is unquoted once by a single application and again by a
second application, so applying the normalizer to an already-normalized
value changes it. -/
theorem C6_cex :
    remove_lt_quotes (remove_lt_quotes ("\"\"inner\"\""))
      ≠ remove_lt_quotes ("\"\"inner\"\"")
    ∧ remove_lt_quotes ("\"\"inner\"\"") = ("\"inner\"")
    ∧ remove_lt_quotes ("\"inner\"") = ("inner") := by decide

/-- C6 amended: normalization is idempotent exactly on the inputs whose
once-normalized result is not itself wrapped in a matching quote pair with
a non-empty interior: under that condition a second application changes
nothing. -/
theorem C6_idempotent_unless_requoted (s : String)
    (h : strippedAgainB (remove_lt_quotes s) = false) :
    remove_lt_quotes (remove_lt_quotes s) = remove_lt_quotes s :=
  strippedAgainB_false_fix _ h

theorem C6_idempotent_unless_requoted_witness :
    strippedAgainB (remove_lt_quotes ("\"hello\"")) = false
    ∧ remove_lt_quotes (remove_lt_quotes ("\"hello\""))
        = remove_lt_quotes ("\"hello\"") :=
  ⟨by decide, C6_idempotent_unless_requoted ("\"hello\"") (by decide)⟩

/-- C7 counterexample: the quote round-trip fails for the empty value,
which the claim explicitly includes: a key assigned an empty double-quoted
value parses to the two-character quoted string, not to the empty string,
because the empty captured group is falsy and the quotes are kept. -/
theorem C7_cex :
    parseLine ("A=\"\"") = some (("A"), ("\"\""))
    ∧ parseLine ("A=\"\"") ≠ some (("A"), ("")) := by decide

/-- C7 amended: for every already-normalized key and every non-empty,
newline-free value not containing the quote character, parsing the line of
the key and the quoted value yields exactly the pair of key and unquoted
value, for double quotes and for single quotes alike. -/
theorem C7_quote_roundtrip (k v : String)
    (hexp : strip_export k = k) (hstrip : pyStrip k = k)
    (hkeq : '=' ∉ k.data) (hhash : ¬ k.data.head? = some '#')
    (hvne : v ≠ "") (hvnl : ∀ c ∈ v.data, c ≠ '\n') :
    (('"' ∉ v.data) →
      parseLine (k ++ ("=\"") ++ v ++ ("\"")) = some (k, v))
    ∧ ((squote ∉ v.data) →
      parseLine (k ++ ("=") ++ String.mk [squote] ++ v ++ String.mk [squote])
        = some (k, v)) := by
  have hvd : v.data ≠ [] := fun e => hvne ((data_eq_nil_iff v).mp e)
  have main : ∀ q : Char, isQuoteChar q →
      parseLine (k ++ ("=") ++ String.mk [q] ++ v ++ String.mk [q]) = some (k, v) := by
    intro q hq
    have hdata : (k ++ ("=") ++ String.mk [q] ++ v ++ String.mk [q]).data
        = k.data ++ '=' :: (q :: v.data ++ [q]) := by
      simp [String.data_append, eq_sign_data]
    have hhash' := line_head_not_hash _ k (q :: v.data ++ [q]) hdata hstrip hhash
    rw [parseLine_eq _ k.data (q :: v.data ++ [q]) hdata hkeq hhash',
      mk_data, hexp, hstrip]
    have hqw : isPyWhitespace q = false := by
      rcases hq with hh | hh <;> rw [hh] <;> decide
    rw [pyStrip_wrap q q v.data hqw hqw,
      remove_lt_quotes_wrap q v.data hq hvd hvnl, mk_data]
  refine ⟨fun _ => ?_, fun _ => main squote (Or.inr rfl)⟩
  have hlit : ("=\"" : String).data = ['=', '"'] := rfl
  have hlit2 : ("\"" : String).data = ['"'] := rfl
  have heq : k ++ ("=\"") ++ v ++ ("\"")
      = k ++ ("=") ++ String.mk ['"'] ++ v ++ String.mk ['"'] := by
    apply string_ext
    simp [String.data_append, hlit, hlit2, eq_sign_data]
  rw [heq]
  exact main '"' (Or.inl rfl)

theorem C7_quote_roundtrip_witness :
    (("not_admin" : String) ≠ "")
    ∧ parseLine (("USER_NAME") ++ ("=\"") ++ ("not_admin") ++ ("\""))
        = some (("USER_NAME"), ("not_admin")) :=
  ⟨by decide,
   (C7_quote_roundtrip ("USER_NAME") ("not_admin") (by decide) (by decide)
      (by decide) (by decide) (by decide) (by decide)).1 (by decide)⟩

/-- C8 counterexample: with boto3 available and no store name from any
source, the parameter-store loader resolves the store name to nothing yet
returns success, so a remote-source loader does report success when a
required identifying parameter is missing. -/
theorem C8_cex :
    (pstore_load_values true none none none none none none []).1
      = AwsOutcome.early true
    ∧ (pstore_load_values true none none none none none none []).2.1 = none := by
  decide

/-- C8 amended: before any remote call, the secrets-manager loader returns
success false when the resolved store name is missing, and both loaders
return success false when the store name is present but the resolved region
is missing; the parameter-store loader alone returns success true, with no
values loaded, when the store name is missing. -/
theorem C8_missing_params (sArg rArg s0 r0 kwS kwR : Option String)
    (environ : Store) :
    ((populate_region_store_names (pyOrOpt sArg s0) (pyOrOpt rArg r0)
        kwS kwR environ).1 = none →
      (secret_load_values true sArg rArg s0 r0 kwS kwR environ).1
          = AwsOutcome.early false
      ∧ (pstore_load_values true sArg rArg s0 r0 kwS kwR environ).1
          = AwsOutcome.early true)
    ∧ (¬ (populate_region_store_names (pyOrOpt sArg s0) (pyOrOpt rArg r0)
        kwS kwR environ).1 = none →
      (populate_region_store_names (pyOrOpt sArg s0) (pyOrOpt rArg r0)
        kwS kwR environ).2 = none →
      (secret_load_values true sArg rArg s0 r0 kwS kwR environ).1
          = AwsOutcome.early false
      ∧ (pstore_load_values true sArg rArg s0 r0 kwS kwR environ).1
          = AwsOutcome.early false) := by
  constructor
  · intro h1
    unfold secret_load_values pstore_load_values
    simp [h1]
  · intro h1 h2
    unfold secret_load_values pstore_load_values
    simp [h1, h2]

theorem C8_missing_params_witness :
    (populate_region_store_names (pyOrOpt none none) (pyOrOpt none none)
        none none []).1 = none
    ∧ (secret_load_values true none none none none none none []).1
        = AwsOutcome.early false :=
  ⟨by decide, ((C8_missing_params none none none none none none []).1 (by decide)).1⟩

/-- C9 counterexample: with the primary region variable set to the empty
string and the fallback region variable set to a non-empty region, the
resolved region is the empty string, not the non-empty fallback value:
resolution is first-set-wins, not first-non-empty-wins. -/
theorem C9_cex :
    (populate_region_store_names none none none none
        [(("AWS_REGION_NAME"), ("")), (("AWS_REGION"), ("us-east-1"))]).2
      = some ("")
    ∧ (populate_region_store_names none none none none
        [(("AWS_REGION_NAME"), ("")), (("AWS_REGION"), ("us-east-1"))]).2
      ≠ some (("us-east-1")) := by decide

/-- C9 amended: region resolution is first-set-wins over the two alias
variables: an explicitly passed non-empty region takes precedence over
both; otherwise the primary alias is used whenever it is set, even when set
to the empty string, and the fallback alias is consulted only when the
primary alias is unset. -/
theorem C9_region_resolution (environ : Store) (r w : String)
    (s0 kwS : Option String) :
    ((r ≠ "") → ∀ kwR : Option String,
      (populate_region_store_names s0 (some r) kwS kwR environ).2 = some r)
    ∧ (lookupStore environ ("AWS_REGION_NAME") = some w →
      (populate_region_store_names s0 none kwS none environ).2 = some w)
    ∧ (lookupStore environ ("AWS_REGION_NAME") = none →
      (populate_region_store_names s0 none kwS none environ).2
        = lookupStore environ ("AWS_REGION")) := by
  refine ⟨?_, ?_, ?_⟩
  · intro hr kwR
    unfold populate_region_store_names pyOrOpt
    simp [hr]
  · intro h
    unfold populate_region_store_names pyOrOpt getenvD getenv
    simp [h]
  · intro h
    unfold populate_region_store_names pyOrOpt getenvD getenv
    simp [h]

theorem C9_region_resolution_witness :
    (("eu-west-1" : String) ≠ "")
    ∧ (populate_region_store_names none (some ("eu-west-1")) none none []).2
        = some ("eu-west-1") :=
  ⟨by decide, (C9_region_resolution [] ("eu-west-1") ("") none none).1 (by decide) none⟩
